import Mathlib

/-!
Verification development for the `take_candles` repository: a paginated
Binance candlestick fetcher (modular version under `src/`, legacy standalone
script, and a zod-based environment validator).

The TypeScript sources are shallowly embedded below.  The upstream HTTP
dependency (axios) is modelled as a scripted list of responses, one per loop
iteration: `Except Unit (List RawCandle)` where `.error` models a thrown
request error.  Timestamps are `Int` (JS numbers holding integral epoch
milliseconds).  The file sink is modelled by the string that `fs.writeFileSync`
would receive.
-/

set_option maxRecDepth 4000

namespace TakeCandles

/-! ## Time formatting (`src/utils/time.ts` and the JS `Date` builtin) -/

/-- Left-pad a natural number to two decimal digits. -/
def pad2 (n : Nat) : String :=
  if n < 10 then "0" ++ toString n else toString n

/-- Left-pad a natural number to three decimal digits. -/
def pad3 (n : Nat) : String :=
  if n < 10 then "00" ++ toString n
  else if n < 100 then "0" ++ toString n
  else toString n

/-- Left-pad a natural number to four decimal digits. -/
def pad4 (n : Nat) : String :=
  if n < 10 then "000" ++ toString n
  else if n < 100 then "00" ++ toString n
  else if n < 1000 then "0" ++ toString n
  else toString n

/-- Proleptic-Gregorian civil date from a count of days since 1970-01-01
(Howard Hinnant's `civil_from_days` algorithm, as used by every correct
implementation of the JS `Date` UTC calendar).  Returns `(year, month, day)`. -/
def civilFromDays (z0 : Int) : Int × Int × Int :=
  let z : Int := z0 + 719468
  let era : Int := (if 0 ≤ z then z else z - 146096) / 146097
  let doe : Int := z - era * 146097
  let yoe : Int := (doe - doe / 1460 + doe / 36524 - doe / 146096) / 365
  let y : Int := yoe + era * 400
  let doy : Int := doe - (365 * yoe + yoe / 4 - yoe / 100)
  let mp : Int := (5 * doy + 2) / 153
  let d : Int := doy - (153 * mp + 2) / 5 + 1
  let m : Int := if mp < 10 then mp + 3 else mp - 9
  (if m ≤ 2 then y + 1 else y, m, d)

/-- Days since 1970-01-01 of a civil date (inverse of `civilFromDays`). -/
def daysFromCivil (y m d : Int) : Int :=
  let y' : Int := if m ≤ 2 then y - 1 else y
  let era : Int := (if 0 ≤ y' then y' else y' - 399) / 400
  let yoe : Int := y' - era * 400
  let mp : Int := if 2 < m then m - 3 else m + 9
  let doy : Int := (153 * mp + 2) / 5 + d - 1
  let doe : Int := yoe * 365 + yoe / 4 - yoe / 100 + doy
  era * 146097 + doe - 719468

/-- Model of JS `new Date(ms).toISOString()` for epoch-millisecond inputs
whose year falls in 0..9999 (the simple `YYYY-MM-DDTHH:MM:SS.sssZ` form). -/
def toISOString (ms : Int) : String :=
  let msOfDay : Int := ms.emod 86400000
  let day : Int := (ms - msOfDay) / 86400000
  let c := civilFromDays day
  let hh : Int := msOfDay / 3600000
  let mi : Int := (msOfDay / 60000).emod 60
  let ss : Int := (msOfDay / 1000).emod 60
  let mmm : Int := msOfDay.emod 1000
  pad4 c.1.toNat ++ "-" ++ pad2 c.2.1.toNat ++ "-" ++ pad2 c.2.2.toNat ++
    "T" ++ pad2 hh.toNat ++ ":" ++ pad2 mi.toNat ++ ":" ++ pad2 ss.toNat ++
    "." ++ pad3 mmm.toNat ++ "Z"

/-- `formatCandleTime` from `src/utils/time.ts`: `new Date(ts).toISOString()`. -/
def formatCandleTime (ts : Int) : String := toISOString ts

/-! ## Data model (`src/types/candle.ts`) -/

/-- The seven positions of a raw Binance kline array that the code reads
(indices 0..6; the remaining positions are never accessed). -/
structure RawCandle where
  openTime : Int
  «open» : String
  high : String
  low : String
  close : String
  volume : String
  closeTime : Int
deriving DecidableEq, Repr

/-- `CandleWithISO` from `src/types/candle.ts`. -/
structure CandleWithISO where
  openTime : Int
  «open» : String
  high : String
  low : String
  close : String
  volume : String
  closeTime : Int
  openISO : String
  closeISO : String
deriving DecidableEq, Repr

instance : Inhabited CandleWithISO :=
  ⟨⟨0, "", "", "", "", "", 0, "", ""⟩⟩

/-- `mapCandle` from `src/services/binance.service.ts`. -/
def mapCandle (raw : RawCandle) : CandleWithISO :=
  { openTime := raw.openTime
    «open» := raw.«open»
    high := raw.high
    low := raw.low
    close := raw.close
    volume := raw.volume
    closeTime := raw.closeTime
    openISO := formatCandleTime raw.openTime
    closeISO := formatCandleTime raw.closeTime }

/-! ## CSV sink (`src/utils/file.ts`) -/

/-- One CSV row of `saveCandlesToFile` (template-literal interpolation;
JS prints the integral `openTime`/`closeTime` numbers in decimal). -/
def candleRow (c : CandleWithISO) : String :=
  toString c.openTime ++ "," ++ c.«open» ++ "," ++ c.high ++ "," ++ c.low ++
    "," ++ c.close ++ "," ++ c.volume ++ "," ++ toString c.closeTime ++
    "," ++ c.openISO ++ "," ++ c.closeISO

/-- The string `saveCandlesToFile` from `src/utils/file.ts` writes with
`fs.writeFileSync`: header line plus newline-joined rows. -/
def saveCandlesToFile (candles : List CandleWithISO) : String :=
  "openTime,open,high,low,close,volume,closeTime,openISO,closeISO\n" ++
    String.intercalate "\n" (candles.map candleRow)

/-! ## The fetch loop (`fetchCandles` in `src/services/binance.service.ts`)

One loop iteration = one `axios.get`.  The scripted upstream is a list of
responses consumed in order; `.error ()` models the request throwing (caught
by the `catch` block).  Each `Iter` records the `startTime` parameter the
request was issued with, the response received, and whether
`await delay(env.REQ_DELAY_MS)` was reached on that iteration. -/

/-- A response of the scripted upstream for one page request. -/
abbrev PageResp := Except Unit (List RawCandle)

instance : DecidableEq PageResp := fun a b =>
  match a, b with
  | Except.error (), Except.error () => isTrue rfl
  | Except.ok x, Except.ok y =>
    if h : x = y then isTrue (by rw [h]) else isFalse (fun hc => by cases hc; exact h rfl)
  | Except.error (), Except.ok _ => isFalse (fun hc => by cases hc)
  | Except.ok _, Except.error () => isFalse (fun hc => by cases hc)

/-- Record of one executed loop iteration. -/
structure Iter where
  reqStart : Int
  resp : PageResp
  delayed : Bool
deriving DecidableEq, Repr

instance : Inhabited Iter := ⟨⟨0, Except.error (), false⟩⟩

/-- The `while (fetchMore)` loop of `fetchCandles`, iteration by iteration:

* thrown request (`.error`): `catch` sets `fetchMore = false`; no delay;
* empty page: `break`; no delay;
* non-empty page: map, append, advance
  `startTime = candles[candles.length - 1].closeTime + 1`; if
  `candles.length < limit` set `fetchMore = false`; in either case
  `await delay(...)` still runs before the loop condition is re-checked.

Returns the iteration trace and the final `allCandles`.  An exhausted script
(empty list) just returns the accumulator: runs of interest terminate within
the script. -/
def fetchRun (limit : Int) :
    List PageResp → Int → List CandleWithISO → List Iter × List CandleWithISO
  | [], _, acc => ([], acc)
  | r :: rest, startTime, acc =>
    match r with
    | Except.error u => ([⟨startTime, Except.error u, false⟩], acc)
    | Except.ok raw =>
      if raw.length = 0 then ([⟨startTime, Except.ok raw, false⟩], acc)
      else
        let candles := raw.map mapCandle
        let acc' := acc ++ candles
        let startTime' := (candles.getLastD default).closeTime + 1
        if (candles.length : Int) < limit then
          ([⟨startTime, Except.ok raw, true⟩], acc')
        else
          let next := fetchRun limit rest startTime' acc'
          (⟨startTime, Except.ok raw, true⟩ :: next.1, next.2)

/-- Full `fetchCandles` run of the modular service: loop from the configured
start instant with an empty accumulator, then one `saveCandlesToFile`.
Returns the written file contents and the iteration trace. -/
def fetchCandlesFile (limit : Int) (startMs : Int) (script : List PageResp) :
    String × List Iter :=
  let r := fetchRun limit script startMs []
  (saveCandlesToFile r.2, r.1)

/-! ## Environment validation (`envSchema` in the config module)

`z.object({...}).safeParse(process.env)`: each variable is an optional string.
`z.string().min(1)` = present and non-empty; `z.coerce.number().int().positive()`
= present, coerces to a number (modelled for decimal integer literals: an
optional sign followed by digits), integral and strictly positive;
`z.string().datetime()` = matches zod's default ISO-8601 pattern
`YYYY-MM-DDTHH:MM:SS(.digits)?Z` (no offset forms).  On failure the module
prints a diagnostic and calls `process.exit(1)` before anything else runs. -/

/-- Decimal value of a digit list. -/
def digitsVal (ds : List Char) : Nat :=
  ds.foldl (fun a c => a * 10 + (c.toNat - 48)) 0

/-- JS `Number(s)` restricted to signed decimal integer literals, which is all
the validated paths ever see: `some n` iff `s` is an optional sign followed by
one or more digits (anything else fails zod's subsequent `.int()` check or is
already non-numeric). -/
def parseDecInt (s : String) : Option Int :=
  match s.toList with
  | [] => none
  | '-' :: ds =>
    if ds ≠ [] ∧ ds.all Char.isDigit then some (-(digitsVal ds : Int)) else none
  | '+' :: ds =>
    if ds ≠ [] ∧ ds.all Char.isDigit then some (digitsVal ds) else none
  | ds => if ds.all Char.isDigit then some (digitsVal ds) else none

/-- Read exactly `n` decimal digits, accumulating their value. -/
def takeDigits : Nat → List Char → Nat → Option (Nat × List Char)
  | 0, cs, acc => some (acc, cs)
  | n + 1, c :: cs, acc =>
    if c.isDigit then takeDigits n cs (acc * 10 + (c.toNat - 48)) else none
  | _ + 1, [], _ => none

/-- Consume one expected character. -/
def expectChar (c : Char) : List Char → Option (List Char)
  | x :: xs => if x = c then some xs else none
  | [] => none

/-- The tail of an ISO datetime after the seconds: either a bare `Z`, or a dot,
one or more fraction digits and `Z`.  Returns the millisecond value (fraction
truncated/padded to three digits, as JS date parsing does). -/
def parseFracZ : List Char → Option Nat
  | ['Z'] => some 0
  | '.' :: rest =>
    if rest.getLastD 'x' = 'Z' ∧ rest.dropLast ≠ [] ∧ rest.dropLast.all Char.isDigit
    then some (digitsVal ((rest.dropLast ++ ['0', '0', '0']).take 3))
    else none
  | _ => none

/-- Components of a parsed ISO-8601 UTC datetime string. -/
structure ISOParts where
  year : Nat
  month : Nat
  day : Nat
  hour : Nat
  minute : Nat
  second : Nat
  msec : Nat
deriving DecidableEq, Repr

/-- Parser for zod's default `z.string().datetime()` pattern
`^\d\x7b4\x7d-\d\x7b2\x7d-\d\x7b2\x7dT\d\x7b2\x7d:\d\x7b2\x7d:\d\x7b2\x7d(\.\d+)?Z$`. -/
def parseISO (s : String) : Option ISOParts := do
  let (y, cs) ← takeDigits 4 s.toList 0
  let cs ← expectChar '-' cs
  let (mo, cs) ← takeDigits 2 cs 0
  let cs ← expectChar '-' cs
  let (d, cs) ← takeDigits 2 cs 0
  let cs ← expectChar 'T' cs
  let (h, cs) ← takeDigits 2 cs 0
  let cs ← expectChar ':' cs
  let (mi, cs) ← takeDigits 2 cs 0
  let cs ← expectChar ':' cs
  let (sec, cs) ← takeDigits 2 cs 0
  let ms ← parseFracZ cs
  pure ⟨y, mo, d, h, mi, sec, ms⟩

/-- `new Date(s).getTime()` for strings of the validated ISO shape
(UTC interpretation); `0` as a don't-care value on unparsable input, which the
validated program path never reaches. -/
def isoToMs (s : String) : Int :=
  match parseISO s with
  | some p =>
    daysFromCivil p.year p.month p.day * 86400000 + p.hour * 3600000 +
      p.minute * 60000 + p.second * 1000 + p.msec
  | none => 0

/-- The raw environment: each variable either present with a string value or
absent (`process.env` lookup yields `undefined`). -/
structure EnvRaw where
  SYMBOL : Option String
  INTERVAL : Option String
  LIMIT : Option String
  REQ_DELAY_MS : Option String
  START_DATE : Option String
  OUTPUT_FILE : Option String
deriving DecidableEq, Repr

/-- `z.string().min(1)`: present and non-empty. -/
def checkNonempty (o : Option String) : Bool :=
  match o with
  | some s => decide (1 ≤ s.length)
  | none => false

/-- `z.coerce.number().int().positive()`: the coerced value when it is a
strictly positive integer, `none` otherwise. -/
def coerceIntPos (o : Option String) : Option Int :=
  match o with
  | some s =>
    match parseDecInt s with
    | some n => if 0 < n then some n else none
    | none => none
  | none => none

/-- Boolean form of the `z.coerce.number().int().positive()` check. -/
def checkPosInt (o : Option String) : Bool :=
  (coerceIntPos o).isSome

/-- `z.string().datetime()`: present and matching the ISO pattern. -/
def checkDatetime (o : Option String) : Bool :=
  match o with
  | some s => (parseISO s).isSome
  | none => false

/-- The validated configuration (`parsed.data`). -/
structure EnvConfig where
  SYMBOL : String
  INTERVAL : String
  LIMIT : Int
  REQ_DELAY_MS : Int
  START_DATE : String
  OUTPUT_FILE : String
deriving DecidableEq, Repr

/-- `envSchema.safeParse`: `some` of the validated config iff every field
check passes. -/
def envSafeParse (e : EnvRaw) : Option EnvConfig :=
  if checkNonempty e.SYMBOL && checkNonempty e.INTERVAL && checkPosInt e.LIMIT &&
      checkPosInt e.REQ_DELAY_MS && checkDatetime e.START_DATE &&
      checkNonempty e.OUTPUT_FILE
  then some ⟨e.SYMBOL.getD "", e.INTERVAL.getD "", (coerceIntPos e.LIMIT).getD 0,
             (coerceIntPos e.REQ_DELAY_MS).getD 0, e.START_DATE.getD "",
             e.OUTPUT_FILE.getD ""⟩
  else none

/-- Observable outcome of one process run: exit status, number of upstream
requests issued, and the file contents written (if the run reached the sink). -/
structure ProcResult where
  exitCode : Nat
  networkRequests : Nat
  fileOutput : Option String
deriving DecidableEq, Repr

/-- The whole process: importing the config module validates the environment
first — on failure it prints the diagnostic and exits with status 1 before any
network request; on success `fetchCandles` runs from
`new Date(env.START_DATE).getTime()` and writes the file once. -/
def runProcess (e : EnvRaw) (script : List PageResp) : ProcResult :=
  match envSafeParse e with
  | none => ⟨1, 0, none⟩
  | some cfg =>
    let r := fetchRun cfg.LIMIT script (isoToMs cfg.START_DATE) []
    ⟨0, r.1.length, some (saveCandlesToFile r.2)⟩

/-! ## The legacy standalone script

The legacy `index.ts` has the same `mapCandle`, `formatCandleTime`,
`saveCandlesToFile` and fetch loop, written as one file.  Its only behavioural
difference at the sink: it saves
`allCandles.map(candle => mapCandle([candle.openTime, ..., candle.closeTime]))`,
re-mapping every accumulated candle through `mapCandle` immediately before the
write. -/

/-- Legacy `mapCandle` (section 4 of the standalone script). -/
def legacyMapCandle (raw : RawCandle) : CandleWithISO :=
  { openTime := raw.openTime
    «open» := raw.«open»
    high := raw.high
    low := raw.low
    close := raw.close
    volume := raw.volume
    closeTime := raw.closeTime
    openISO := formatCandleTime raw.openTime
    closeISO := formatCandleTime raw.closeTime }

/-- Legacy `saveCandlesToFile`: identical header and row template. -/
def legacySaveCandlesToFile (candles : List CandleWithISO) : String :=
  "openTime,open,high,low,close,volume,closeTime,openISO,closeISO\n" ++
    String.intercalate "\n" (candles.map candleRow)

/-- Legacy `fetchCandles` loop body: same iteration structure as the modular
service (empty page → break; map/append/advance cursor; short page ends the
loop after the delay; a thrown request is caught and ends the loop). -/
def legacyFetchRun (limit : Int) :
    List PageResp → Int → List CandleWithISO → List Iter × List CandleWithISO
  | [], _, acc => ([], acc)
  | r :: rest, startTime, acc =>
    match r with
    | Except.error u => ([⟨startTime, Except.error u, false⟩], acc)
    | Except.ok raw =>
      if raw.length = 0 then ([⟨startTime, Except.ok raw, false⟩], acc)
      else
        let candles := raw.map legacyMapCandle
        let acc' := acc ++ candles
        let startTime' := (candles.getLastD default).closeTime + 1
        if (candles.length : Int) < limit then
          ([⟨startTime, Except.ok raw, true⟩], acc')
        else
          let next := legacyFetchRun limit rest startTime' acc'
          (⟨startTime, Except.ok raw, true⟩ :: next.1, next.2)

/-- The legacy pre-save re-mapping:
`mapCandle([candle.openTime, candle.open, ..., candle.closeTime])`. -/
def legacyRemap (c : CandleWithISO) : CandleWithISO :=
  legacyMapCandle ⟨c.openTime, c.«open», c.high, c.low, c.close, c.volume, c.closeTime⟩

/-- Full legacy run: loop, then save the re-mapped accumulated candles. -/
def legacyFetchCandlesFile (limit : Int) (startMs : Int)
    (script : List PageResp) : String × List Iter :=
  let r := legacyFetchRun limit script startMs []
  (legacySaveCandlesToFile (r.2.map legacyRemap), r.1)

/-! ## Derived notions used by the statements -/

/-- The page carried by a response (`[]` for a thrown request). -/
def pageOf : PageResp → List RawCandle
  | Except.ok raw => raw
  | Except.error _ => []

/-- The cursor the loop computes from a non-empty page:
`candles[candles.length - 1].closeTime + 1`. -/
def nextCursor (raw : List RawCandle) : Int :=
  ((raw.map mapCandle).getLastD default).closeTime + 1

/-- Relation between consecutive iterations: the earlier one received a
non-empty page and the later request's `startTime` is the close time of the
last mapped candle of that page plus one. -/
def cursorStep (a b : Iter) : Prop :=
  ∃ raw, a.resp = Except.ok raw ∧ raw ≠ [] ∧ b.reqStart = nextCursor raw

/-! ## Helper lemmas -/

lemma map_pointwise_id {α : Type _} (f : α → α) :
    ∀ (l : List α), (∀ c ∈ l, f c = c) → l.map f = l
  | [], _ => rfl
  | a :: t, h => by
    simp only [List.map_cons]
    rw [h a (List.mem_cons_self a t),
      map_pointwise_id f t (fun c hc => h c (List.mem_cons_of_mem a hc))]

lemma getLastD_mem {α : Type _} : ∀ (l : List α) (d : α), l ≠ [] → l.getLastD d ∈ l
  | [], _, h => absurd rfl h
  | [a], _, _ => by simp [List.getLastD_cons, List.getLastD]
  | a :: b :: t, d, _ => by
    rw [List.getLastD_cons]
    exact List.mem_cons_of_mem a (getLastD_mem (b :: t) a (by simp))

lemma getLastD_map_ne_nil {α β : Type _} (f : α → β) :
    ∀ (l : List α) (d : α) (d' : β), l ≠ [] → (l.map f).getLastD d' = f (l.getLastD d)
  | [], _, _, h => absurd rfl h
  | [a], _, _, _ => by simp [List.getLastD_cons, List.getLastD]
  | a :: b :: t, d, d', _ => by
    show (f a :: (b :: t).map f).getLastD d' = f ((a :: b :: t).getLastD d)
    rw [List.getLastD_cons]
    rw [show (a :: b :: t).getLastD d = (b :: t).getLastD a from List.getLastD_cons d a (b :: t)]
    exact getLastD_map_ne_nil f (b :: t) a (f a) (by simp)

lemma chain'_lt_le_getLastD {α : Type _} (f : α → Int) :
    ∀ (l : List α) (d : α), List.Chain' (fun a b => f a < f b) l →
      ∀ x ∈ l, f x ≤ f (l.getLastD d)
  | [], _, _, x, hx => absurd hx (List.not_mem_nil x)
  | [a], _, _, x, hx => by
    simp only [List.mem_singleton] at hx
    subst hx
    simp [List.getLastD_cons, List.getLastD]
  | a :: b :: t, d, hch, x, hx => by
    rw [List.chain'_cons] at hch
    rw [List.getLastD_cons]
    rcases List.mem_cons.mp hx with h | h
    · rw [h]
      exact le_of_lt (lt_of_lt_of_le hch.1
        (chain'_lt_le_getLastD f (b :: t) a hch.2 b (List.mem_cons_self b t)))
    · exact chain'_lt_le_getLastD f (b :: t) a hch.2 x h

/-! ### Unfolding equations for the four loop-iteration shapes -/

lemma fetchRun_nil (limit st : Int) (acc : List CandleWithISO) :
    fetchRun limit [] st acc = ([], acc) := rfl

lemma fetchRun_error (limit st : Int) (acc : List CandleWithISO) (u : Unit)
    (rest : List PageResp) :
    fetchRun limit (Except.error u :: rest) st acc =
      ([⟨st, Except.error u, false⟩], acc) := rfl

lemma fetchRun_empty (limit st : Int) (acc : List CandleWithISO)
    (rest : List PageResp) :
    fetchRun limit (Except.ok [] :: rest) st acc =
      ([⟨st, Except.ok [], false⟩], acc) := rfl

lemma fetchRun_short (limit st : Int) (acc : List CandleWithISO)
    (raw : List RawCandle) (rest : List PageResp) (h0 : raw ≠ [])
    (hs : (raw.length : Int) < limit) :
    fetchRun limit (Except.ok raw :: rest) st acc =
      ([⟨st, Except.ok raw, true⟩], acc ++ raw.map mapCandle) := by
  have h0' : ¬ raw.length = 0 := fun hh => h0 (List.length_eq_zero.mp hh)
  simp [fetchRun, h0', List.length_map, hs]

lemma fetchRun_full (limit st : Int) (acc : List CandleWithISO)
    (raw : List RawCandle) (rest : List PageResp) (h0 : raw ≠ [])
    (hs : ¬ (raw.length : Int) < limit) :
    fetchRun limit (Except.ok raw :: rest) st acc =
      (⟨st, Except.ok raw, true⟩ ::
        (fetchRun limit rest (nextCursor raw) (acc ++ raw.map mapCandle)).1,
       (fetchRun limit rest (nextCursor raw) (acc ++ raw.map mapCandle)).2) := by
  have h0' : ¬ raw.length = 0 := fun hh => h0 (List.length_eq_zero.mp hh)
  simp [fetchRun, h0', List.length_map, hs, nextCursor]

lemma fetchRun_head_reqStart (limit : Int) :
    ∀ (script : List PageResp) (st : Int) (acc : List CandleWithISO) (it : Iter),
      (fetchRun limit script st acc).1.head? = some it → it.reqStart = st := by
  intro script st acc it h
  cases script with
  | nil => rw [fetchRun_nil] at h; simp at h
  | cons r rest =>
    cases r with
    | error u =>
      rw [fetchRun_error] at h
      simp only [List.head?_cons, Option.some.injEq] at h
      rw [← h]
    | ok raw =>
      by_cases h0 : raw = []
      · subst h0
        rw [fetchRun_empty] at h
        simp only [List.head?_cons, Option.some.injEq] at h
        rw [← h]
      · by_cases hs : (raw.length : Int) < limit
        · rw [fetchRun_short limit st acc raw rest h0 hs] at h
          simp only [List.head?_cons, Option.some.injEq] at h
          rw [← h]
        · rw [fetchRun_full limit st acc raw rest h0 hs] at h
          simp only [List.head?_cons, Option.some.injEq] at h
          rw [← h]

/-! ## Claims -/

/-- Claim C1: in every run of the fetch loop, whenever one iteration is
followed by another page request, the earlier iteration received a non-empty
page and the next request's `startTime` equals the close time of the last
candle mapped from that page plus one. -/
theorem spec_C1 (limit st : Int) (script : List PageResp)
    (acc : List CandleWithISO) :
    List.Chain' cursorStep (fetchRun limit script st acc).1 := by
  induction script generalizing st acc with
  | nil => rw [fetchRun_nil]; exact List.chain'_nil
  | cons r rest ih =>
    cases r with
    | error u => rw [fetchRun_error]; exact List.chain'_singleton _
    | ok raw =>
      by_cases h0 : raw = []
      · subst h0; rw [fetchRun_empty]; exact List.chain'_singleton _
      · by_cases hs : (raw.length : Int) < limit
        · rw [fetchRun_short limit st acc raw rest h0 hs]
          exact List.chain'_singleton _
        · rw [fetchRun_full limit st acc raw rest h0 hs]
          refine List.chain'_cons'.mpr ⟨?_, ih _ _⟩
          intro y hy
          exact ⟨raw, rfl, h0,
            fetchRun_head_reqStart limit rest (nextCursor raw) _ y hy⟩

/-- Claim C2: a non-empty page strictly shorter than the requested limit ends
the run right after its candles are mapped and appended, whatever responses
would follow and whatever has been accumulated; a page of exactly the limit
length continues the loop (the check is strict less-than against the requested
limit, not the accumulated total). -/
theorem spec_C2 (limit st : Int) (acc : List CandleWithISO)
    (raw : List RawCandle) (rest : List PageResp) (hne : raw ≠ []) :
    ((raw.length : Int) < limit →
      fetchRun limit (Except.ok raw :: rest) st acc =
        ([⟨st, Except.ok raw, true⟩], acc ++ raw.map mapCandle)) ∧
    ((raw.length : Int) = limit →
      fetchRun limit (Except.ok raw :: rest) st acc =
        (⟨st, Except.ok raw, true⟩ ::
          (fetchRun limit rest (nextCursor raw) (acc ++ raw.map mapCandle)).1,
         (fetchRun limit rest (nextCursor raw) (acc ++ raw.map mapCandle)).2)) := by
  constructor
  · intro hs
    exact fetchRun_short limit st acc raw rest hne hs
  · intro he
    exact fetchRun_full limit st acc raw rest hne (by rw [he]; exact lt_irrefl limit)

/-- A sample raw candle used by concrete witnesses. -/
def demoRaw : RawCandle := ⟨1000, "1", "2", "0.5", "1.5", "10", 1299⟩

/-- Witness for C2 at a concrete input: a one-candle page with limit 500
terminates with exactly that candle appended; with limit 1 the same page
continues into the rest of the script. -/
theorem spec_C2_witness :
    fetchRun 500 [Except.ok [demoRaw]] 0 [] =
      ([⟨0, Except.ok [demoRaw], true⟩], [mapCandle demoRaw]) :=
  (spec_C2 500 0 [] [demoRaw] [] (by decide)).1 (by decide)

/-- Claim C5: the synthetic one-candle page with limit 500 short-page
exhausts after a single iteration and the written file is the header line
followed by exactly the expected row. -/
theorem spec_C5 :
    fetchCandlesFile 500 0 [Except.ok [demoRaw]] =
      ("openTime,open,high,low,close,volume,closeTime,openISO,closeISO\n1000,1,2,0.5,1.5,10,1299,1970-01-01T00:00:01.000Z,1970-01-01T00:00:01.299Z",
       [⟨0, Except.ok [demoRaw], true⟩]) := by
  rfl

/-! ### Termination claims: error page and empty page -/

/-- The candles contributed by a list of pages, in order. -/
def mappedPages (pages : List (List RawCandle)) : List CandleWithISO :=
  (pages.map (List.map mapCandle)).flatten

/-- The cursor after processing a list of non-empty pages in order. -/
def cursorAfter (st : Int) (pages : List (List RawCandle)) : Int :=
  pages.foldl (fun _ p => nextCursor p) st

lemma cursorAfter_cons (st : Int) (p : List RawCandle) (ps : List (List RawCandle)) :
    cursorAfter st (p :: ps) = cursorAfter (nextCursor p) ps := rfl

lemma mappedPages_cons (p : List RawCandle) (ps : List (List RawCandle)) :
    mappedPages (p :: ps) = p.map mapCandle ++ mappedPages ps := by
  simp [mappedPages]

/-- Processing a prefix of full (length-≥-limit, non-empty) pages reaches the
remainder of the script with the pages' candles appended and the cursor
advanced page by page, one iteration per page. -/
lemma fetchRun_full_pages (limit : Int) :
    ∀ (pre : List (List RawCandle)) (st : Int) (acc : List CandleWithISO)
      (s' : List PageResp),
      (∀ p ∈ pre, p ≠ [] ∧ limit ≤ (p.length : Int)) →
      (fetchRun limit (pre.map Except.ok ++ s') st acc).2 =
          (fetchRun limit s' (cursorAfter st pre) (acc ++ mappedPages pre)).2 ∧
        (fetchRun limit (pre.map Except.ok ++ s') st acc).1.length =
          pre.length + (fetchRun limit s' (cursorAfter st pre)
            (acc ++ mappedPages pre)).1.length := by
  intro pre
  induction pre with
  | nil =>
    intro st acc s' _
    simp [cursorAfter, mappedPages]
  | cons p ps ih =>
    intro st acc s' hpre
    have hp := hpre p (List.mem_cons_self p ps)
    have hs : ¬ (p.length : Int) < limit := not_lt.mpr hp.2
    have ihx := ih (nextCursor p) (acc ++ p.map mapCandle) s'
      (fun q hq => hpre q (List.mem_cons_of_mem p hq))
    rw [List.map_cons, List.cons_append,
      fetchRun_full limit st acc p (ps.map Except.ok ++ s') hp.1 hs]
    constructor
    · show (fetchRun limit (ps.map Except.ok ++ s') (nextCursor p)
          (acc ++ p.map mapCandle)).2 = _
      rw [ihx.1, cursorAfter_cons, mappedPages_cons, ← List.append_assoc]
    · show ((⟨st, Except.ok p, true⟩ : Iter) ::
          (fetchRun limit (ps.map Except.ok ++ s') (nextCursor p)
            (acc ++ p.map mapCandle)).1).length = _
      rw [List.length_cons, ihx.2, cursorAfter_cons, mappedPages_cons,
        ← List.append_assoc, List.length_cons]
      omega

/-- Claim C3: when the request for page N throws (after N−1 full pages), the
loop ends on that iteration — nothing after the error is consumed — and the
file written holds exactly the candles of pages 1..N−1 (header-only when
N = 1). -/
theorem spec_C3 (limit st : Int) (pre : List (List RawCandle))
    (rest : List PageResp)
    (hpre : ∀ p ∈ pre, p ≠ [] ∧ limit ≤ (p.length : Int)) :
    (fetchRun limit (pre.map Except.ok ++ Except.error () :: rest) st []).2 =
        mappedPages pre ∧
      (fetchRun limit (pre.map Except.ok ++ Except.error () :: rest) st []).1.length =
        pre.length + 1 ∧
      (fetchCandlesFile limit st (pre.map Except.ok ++ Except.error () :: rest)).1 =
        saveCandlesToFile (mappedPages pre) := by
  have h := fetchRun_full_pages limit pre st [] (Except.error () :: rest) hpre
  have e1 : (fetchRun limit (pre.map Except.ok ++ Except.error () :: rest) st []).2 =
      mappedPages pre := by
    rw [h.1, fetchRun_error]
    simp
  refine ⟨e1, ?_, ?_⟩
  · rw [h.2, fetchRun_error]
    simp
  · show saveCandlesToFile
        (fetchRun limit (pre.map Except.ok ++ Except.error () :: rest) st []).2 = _
    rw [e1]

/-- Witness for C3 at a concrete input: one full page (limit 1) then a thrown
request gives two iterations and a file holding exactly that page's candle. -/
theorem spec_C3_witness :
    (fetchRun 1 ([[demoRaw]].map Except.ok ++ Except.error () :: []) 0 []).2 =
        mappedPages [[demoRaw]] ∧
      (fetchRun 1 ([[demoRaw]].map Except.ok ++ Except.error () :: []) 0 []).1.length =
        [[demoRaw]].length + 1 ∧
      (fetchCandlesFile 1 0 ([[demoRaw]].map Except.ok ++ Except.error () :: [])).1 =
        saveCandlesToFile (mappedPages [[demoRaw]]) :=
  spec_C3 1 0 [[demoRaw]] [] (by decide)

/-- Claim C4: an empty page (after N−1 full pages) ends the loop on that
iteration with the accumulated candles unchanged, and the file written holds
the header plus exactly the candles of the prior pages (possibly zero rows). -/
theorem spec_C4 (limit st : Int) (pre : List (List RawCandle))
    (rest : List PageResp)
    (hpre : ∀ p ∈ pre, p ≠ [] ∧ limit ≤ (p.length : Int)) :
    (fetchRun limit (pre.map Except.ok ++ Except.ok [] :: rest) st []).2 =
        mappedPages pre ∧
      (fetchRun limit (pre.map Except.ok ++ Except.ok [] :: rest) st []).1.length =
        pre.length + 1 ∧
      (fetchCandlesFile limit st (pre.map Except.ok ++ Except.ok [] :: rest)).1 =
        saveCandlesToFile (mappedPages pre) := by
  have h := fetchRun_full_pages limit pre st [] (Except.ok [] :: rest) hpre
  have e1 : (fetchRun limit (pre.map Except.ok ++ Except.ok [] :: rest) st []).2 =
      mappedPages pre := by
    rw [h.1, fetchRun_empty]
    simp
  refine ⟨e1, ?_, ?_⟩
  · rw [h.2, fetchRun_empty]
    simp
  · show saveCandlesToFile
        (fetchRun limit (pre.map Except.ok ++ Except.ok [] :: rest) st []).2 = _
    rw [e1]

/-- Witness for C4 at a concrete input: an immediately empty page (no prior
pages) terminates after one iteration with a header-only file. -/
theorem spec_C4_witness :
    (fetchRun 500 ([].map Except.ok ++ Except.ok [] :: []) 7 []).2 =
        mappedPages [] ∧
      (fetchRun 500 ([].map Except.ok ++ Except.ok [] :: []) 7 []).1.length =
        List.length ([] : List (List RawCandle)) + 1 ∧
      (fetchCandlesFile 500 7 ([].map Except.ok ++ Except.ok [] :: [])).1 =
        saveCandlesToFile (mappedPages []) :=
  spec_C4 500 7 [] [] (by decide)

/-! ### Environment validation claims -/

lemma envSafeParse_none (e : EnvRaw)
    (h : checkDatetime e.START_DATE = false ∨ checkPosInt e.LIMIT = false ∨
      checkPosInt e.REQ_DELAY_MS = false ∨ checkNonempty e.SYMBOL = false ∨
      checkNonempty e.INTERVAL = false ∨ checkNonempty e.OUTPUT_FILE = false) :
    envSafeParse e = none := by
  unfold envSafeParse
  rcases h with h | h | h | h | h | h <;> simp [h]

lemma runProcess_invalid (e : EnvRaw) (script : List PageResp)
    (h : envSafeParse e = none) : runProcess e script = ⟨1, 0, none⟩ := by
  unfold runProcess
  rw [h]

/-- Claim C7: if `START_DATE` fails the ISO-8601 datetime check, or `LIMIT` or
`REQ_DELAY_MS` fails the positive-integer check, or `SYMBOL`, `INTERVAL` or
`OUTPUT_FILE` is missing or empty, the process exits with status 1 having
issued zero network requests and written no file. -/
theorem spec_C7 (e : EnvRaw) (script : List PageResp)
    (h : checkDatetime e.START_DATE = false ∨ checkPosInt e.LIMIT = false ∨
      checkPosInt e.REQ_DELAY_MS = false ∨ checkNonempty e.SYMBOL = false ∨
      checkNonempty e.INTERVAL = false ∨ checkNonempty e.OUTPUT_FILE = false) :
    runProcess e script = ⟨1, 0, none⟩ :=
  runProcess_invalid e script (envSafeParse_none e h)

/-- Witness for C7: a date without a time component fails validation and the
process aborts before any request. -/
theorem spec_C7_witness :
    runProcess ⟨some "BTCUSDT", some "5m", some "500", some "150",
      some "2025-01-01", some "out.csv"⟩ [Except.ok [demoRaw]] = ⟨1, 0, none⟩ :=
  spec_C7 ⟨some "BTCUSDT", some "5m", some "500", some "150",
    some "2025-01-01", some "out.csv"⟩ [Except.ok [demoRaw]] (Or.inl (by decide))

/-- Counterexample to claim C9 as stated: with `REQ_DELAY_MS = "0"` and every
other variable valid, validation does not succeed — the schema demands a
strictly positive delay, so the parse yields `none` and the process aborts
instead of proceeding. -/
theorem spec_C9_counterexample :
    envSafeParse ⟨some "BTCUSDT", some "5m", some "500", some "0",
      some "2025-01-01T00:00:00Z", some "out.csv"⟩ = none ∧
    runProcess ⟨some "BTCUSDT", some "5m", some "500", some "0",
      some "2025-01-01T00:00:00Z", some "out.csv"⟩ [Except.ok [demoRaw]] =
      ⟨1, 0, none⟩ := by
  exact ⟨rfl, rfl⟩

/-- Claim C9 as amended: a configuration whose `REQ_DELAY_MS` is `0` is
invalid — the schema requires a strictly positive integer, so startup
validation fails and the process aborts before any network request. -/
theorem spec_C9_amended (e : EnvRaw) (script : List PageResp)
    (h : e.REQ_DELAY_MS = some "0") : runProcess e script = ⟨1, 0, none⟩ :=
  runProcess_invalid e script
    (envSafeParse_none e (Or.inr (Or.inr (Or.inl (by rw [h]; decide)))))

/-- Witness for the amended C9 at a concrete configuration. -/
theorem spec_C9_amended_witness :
    runProcess ⟨some "BTCUSDT", some "5m", some "500", some "0",
      some "2025-01-01T00:00:00Z", some "out.csv"⟩ [] = ⟨1, 0, none⟩ :=
  spec_C9_amended ⟨some "BTCUSDT", some "5m", some "500", some "0",
    some "2025-01-01T00:00:00Z", some "out.csv"⟩ [] rfl

/-! ### Ordering invariant -/

instance : Inhabited RawCandle := ⟨⟨0, "", "", "", "", "", 0⟩⟩

lemma chain'_append_page (acc : List CandleWithISO) (raw : List RawCandle)
    (st : Int)
    (hacc : List.Chain' (fun a b => a.openTime < b.openTime) acc)
    (hlt : ∀ a ∈ acc, a.openTime < st)
    (hraw : List.Chain' (fun a b => a.openTime < b.openTime) raw)
    (hbnd : ∀ c ∈ raw, st ≤ c.openTime) :
    List.Chain' (fun a b => a.openTime < b.openTime) (acc ++ raw.map mapCandle) := by
  rw [List.chain'_append]
  refine ⟨hacc, ?_, ?_⟩
  · rw [List.chain'_map]
    exact hraw
  · intro x hx y hy
    have hxa : x ∈ acc := List.mem_of_mem_getLast? hx
    have hy' : y ∈ raw.map mapCandle := List.mem_of_mem_head? hy
    rcases List.mem_map.mp hy' with ⟨c, hc, rfl⟩
    exact lt_of_lt_of_le (hlt x hxa) (hbnd c hc)

lemma nextCursor_eq (raw : List RawCandle) (h0 : raw ≠ []) :
    nextCursor raw = (raw.getLastD default).closeTime + 1 := by
  unfold nextCursor
  rw [getLastD_map_ne_nil mapCandle raw default default h0]
  rfl

lemma lt_nextCursor (acc : List CandleWithISO) (raw : List RawCandle) (st : Int)
    (hlt : ∀ a ∈ acc, a.openTime < st) (h0 : raw ≠ [])
    (hraw : List.Chain' (fun a b => a.openTime < b.openTime) raw)
    (hbnd : ∀ c ∈ raw, st ≤ c.openTime ∧ c.openTime ≤ c.closeTime) :
    ∀ a ∈ acc ++ raw.map mapCandle, a.openTime < nextCursor raw := by
  intro a ha
  have hLmem : raw.getLastD default ∈ raw := getLastD_mem raw default h0
  rw [nextCursor_eq raw h0]
  rcases List.mem_append.mp ha with ha | ha
  · have h1 : a.openTime < st := hlt a ha
    have h2 : st ≤ (raw.getLastD default).openTime := (hbnd _ hLmem).1
    have h3 : (raw.getLastD default).openTime ≤ (raw.getLastD default).closeTime :=
      (hbnd _ hLmem).2
    omega
  · rcases List.mem_map.mp ha with ⟨c, hc, rfl⟩
    have h1 : c.openTime ≤ (raw.getLastD default).openTime :=
      chain'_lt_le_getLastD (fun r => r.openTime) raw default hraw c hc
    have h2 : (raw.getLastD default).openTime ≤ (raw.getLastD default).closeTime :=
      (hbnd _ hLmem).2
    show c.openTime < (raw.getLastD default).closeTime + 1
    omega

lemma fetchRun_chain'_aux (limit : Int) :
    ∀ (script : List PageResp) (st : Int) (acc : List CandleWithISO),
      (∀ it ∈ (fetchRun limit script st acc).1,
        List.Chain' (fun a b => a.openTime < b.openTime) (pageOf it.resp) ∧
        ∀ c ∈ pageOf it.resp, it.reqStart ≤ c.openTime ∧ c.openTime ≤ c.closeTime) →
      List.Chain' (fun a b => a.openTime < b.openTime) acc →
      (∀ a ∈ acc, a.openTime < st) →
      List.Chain' (fun a b => a.openTime < b.openTime) (fetchRun limit script st acc).2 := by
  intro script
  induction script with
  | nil =>
    intro st acc _ hacc _
    rw [fetchRun_nil]
    exact hacc
  | cons r rest ih =>
    intro st acc H hacc hlt
    cases r with
    | error u =>
      rw [fetchRun_error]
      exact hacc
    | ok raw =>
      by_cases h0 : raw = []
      · subst h0
        rw [fetchRun_empty]
        exact hacc
      · by_cases hs : (raw.length : Int) < limit
        · rw [fetchRun_short limit st acc raw rest h0 hs] at H ⊢
          have h1 := H ⟨st, Except.ok raw, true⟩ (List.mem_cons_self _ _)
          exact chain'_append_page acc raw st hacc hlt h1.1
            (fun c hc => (h1.2 c hc).1)
        · rw [fetchRun_full limit st acc raw rest h0 hs] at H ⊢
          have h1 := H ⟨st, Except.ok raw, true⟩ (List.mem_cons_self _ _)
          exact ih (nextCursor raw) (acc ++ raw.map mapCandle)
            (fun it hit => H it (List.mem_cons_of_mem _ hit))
            (chain'_append_page acc raw st hacc hlt h1.1 (fun c hc => (h1.2 c hc).1))
            (lt_nextCursor acc raw st hlt h0 h1.1 h1.2)

/-- Claim C6: if, along the run, every received page is strictly increasing in
`openTime` and every candle of a page satisfies
`requestedStartTime ≤ openTime ≤ closeTime`, then the accumulated sequence at
loop exit is strictly increasing in `openTime`; in particular all `openTime`s
are pairwise distinct, so no two pages contribute a duplicate. -/
theorem spec_C6 (limit st : Int) (script : List PageResp)
    (H : ∀ it ∈ (fetchRun limit script st []).1,
      List.Chain' (fun a b => a.openTime < b.openTime) (pageOf it.resp) ∧
      ∀ c ∈ pageOf it.resp, it.reqStart ≤ c.openTime ∧ c.openTime ≤ c.closeTime) :
    List.Chain' (fun a b => a.openTime < b.openTime)
        (fetchRun limit script st []).2 ∧
      List.Pairwise (fun a b => a.openTime ≠ b.openTime)
        (fetchRun limit script st []).2 := by
  have hch := fetchRun_chain'_aux limit script st [] H List.chain'_nil
    (by intro a ha; cases ha)
  refine ⟨hch, ?_⟩
  haveI : IsTrans CandleWithISO (fun a b => a.openTime < b.openTime) :=
    ⟨fun a b c h1 h2 => lt_trans h1 h2⟩
  exact (List.chain'_iff_pairwise.mp hch).imp (fun h => ne_of_lt h)

/-- Sample raw candles for the C6 witness: two ascending pages. -/
def demoRawA : RawCandle := ⟨0, "1", "1", "1", "1", "1", 99⟩

/-- Second sample raw candle. -/
def demoRawB : RawCandle := ⟨100, "2", "2", "2", "2", "2", 199⟩

/-- Third sample raw candle. -/
def demoRawC : RawCandle := ⟨200, "3", "3", "3", "3", "3", 299⟩

/-- Witness for C6 at a concrete input: a full page of two candles followed by
a short page of one, all in range, give a strictly increasing result. -/
theorem spec_C6_witness :
    List.Chain' (fun a b => a.openTime < b.openTime)
        (fetchRun 2 [Except.ok [demoRawA, demoRawB], Except.ok [demoRawC]] 0 []).2 ∧
      List.Pairwise (fun a b => a.openTime ≠ b.openTime)
        (fetchRun 2 [Except.ok [demoRawA, demoRawB], Except.ok [demoRawC]] 0 []).2 :=
  spec_C6 2 0 [Except.ok [demoRawA, demoRawB], Except.ok [demoRawC]] (by
    intro it hit
    have htr : (fetchRun 2 [Except.ok [demoRawA, demoRawB], Except.ok [demoRawC]] 0 []).1 =
        [⟨0, Except.ok [demoRawA, demoRawB], true⟩,
         ⟨200, Except.ok [demoRawC], true⟩] := rfl
    rw [htr] at hit
    rcases List.mem_cons.mp hit with rfl | hit
    · exact ⟨List.chain'_cons.mpr ⟨by decide, List.chain'_singleton _⟩, by decide⟩
    · rcases List.mem_cons.mp hit with rfl | hit
      · exact ⟨List.chain'_singleton _, by decide⟩
      · cases hit)

/-! ### The inter-request delay -/

/-- Counterexample to claim C8 as stated: in the one-page short-page run, the
single (hence terminating) iteration still awaits the delay — the code sets
`fetchMore = false` and then runs `await delay(...)` before re-checking the
loop condition, so the short-page termination is not exempt. -/
theorem spec_C8_counterexample :
    ((fetchRun 500 [Except.ok [demoRaw]] 0 []).1.getLastD default).delayed = true := by
  rfl

/-- Claim C8 as amended: the delay is awaited on exactly the iterations that
successfully process a non-empty page — including the short-page iteration
that terminates the loop — and is skipped when the iteration ends the run by a
thrown request or an empty page. -/
theorem spec_C8_amended (limit st : Int) (script : List PageResp)
    (acc : List CandleWithISO) :
    ∀ it ∈ (fetchRun limit script st acc).1,
      it.delayed = !(pageOf it.resp).isEmpty := by
  induction script generalizing st acc with
  | nil =>
    intro it hit
    rw [fetchRun_nil] at hit
    cases hit
  | cons r rest ih =>
    cases r with
    | error u =>
      intro it hit
      rw [fetchRun_error] at hit
      rcases List.mem_singleton.mp hit with rfl
      rfl
    | ok raw =>
      by_cases h0 : raw = []
      · subst h0
        intro it hit
        rw [fetchRun_empty] at hit
        rcases List.mem_singleton.mp hit with rfl
        rfl
      · obtain ⟨c, cs, rfl⟩ : ∃ c cs, raw = c :: cs := by
          cases raw with
          | nil => exact absurd rfl h0
          | cons c cs => exact ⟨c, cs, rfl⟩
        by_cases hs : ((c :: cs).length : Int) < limit
        · intro it hit
          rw [fetchRun_short limit st acc (c :: cs) rest h0 hs] at hit
          rcases List.mem_singleton.mp hit with rfl
          rfl
        · intro it hit
          rw [fetchRun_full limit st acc (c :: cs) rest h0 hs] at hit
          rcases List.mem_cons.mp hit with rfl | hit'
          · rfl
          · exact ih _ _ it hit'

/-- Witness for the amended C8 at a concrete input: the short-page
terminating iteration of the one-page run has `delayed = true`, matching the
non-emptiness of its page. -/
theorem spec_C8_amended_witness :
    (⟨0, Except.ok [demoRaw], true⟩ : Iter).delayed =
      !(pageOf (Except.ok [demoRaw])).isEmpty :=
  spec_C8_amended 500 0 [Except.ok [demoRaw]] [] ⟨0, Except.ok [demoRaw], true⟩
    (by decide)

/-! ### Legacy/modular refinement -/

lemma legacyMapCandle_eq : legacyMapCandle = mapCandle := rfl

lemma legacyFetchRun_error (limit st : Int) (acc : List CandleWithISO) (u : Unit)
    (rest : List PageResp) :
    legacyFetchRun limit (Except.error u :: rest) st acc =
      ([⟨st, Except.error u, false⟩], acc) := rfl

lemma legacyFetchRun_empty (limit st : Int) (acc : List CandleWithISO)
    (rest : List PageResp) :
    legacyFetchRun limit (Except.ok [] :: rest) st acc =
      ([⟨st, Except.ok [], false⟩], acc) := rfl

lemma legacyFetchRun_short (limit st : Int) (acc : List CandleWithISO)
    (raw : List RawCandle) (rest : List PageResp) (h0 : raw ≠ [])
    (hs : (raw.length : Int) < limit) :
    legacyFetchRun limit (Except.ok raw :: rest) st acc =
      ([⟨st, Except.ok raw, true⟩], acc ++ raw.map mapCandle) := by
  have h0' : ¬ raw.length = 0 := fun hh => h0 (List.length_eq_zero.mp hh)
  simp [legacyFetchRun, h0', List.length_map, hs, legacyMapCandle_eq]

lemma legacyFetchRun_full (limit st : Int) (acc : List CandleWithISO)
    (raw : List RawCandle) (rest : List PageResp) (h0 : raw ≠ [])
    (hs : ¬ (raw.length : Int) < limit) :
    legacyFetchRun limit (Except.ok raw :: rest) st acc =
      (⟨st, Except.ok raw, true⟩ ::
        (legacyFetchRun limit rest (nextCursor raw) (acc ++ raw.map mapCandle)).1,
       (legacyFetchRun limit rest (nextCursor raw) (acc ++ raw.map mapCandle)).2) := by
  have h0' : ¬ raw.length = 0 := fun hh => h0 (List.length_eq_zero.mp hh)
  simp [legacyFetchRun, h0', List.length_map, hs, nextCursor, legacyMapCandle_eq]

lemma legacyFetchRun_eq (limit : Int) :
    ∀ (script : List PageResp) (st : Int) (acc : List CandleWithISO),
      legacyFetchRun limit script st acc = fetchRun limit script st acc := by
  intro script
  induction script with
  | nil => intro st acc; rfl
  | cons r rest ih =>
    intro st acc
    cases r with
    | error u => rw [legacyFetchRun_error, fetchRun_error]
    | ok raw =>
      by_cases h0 : raw = []
      · subst h0; rw [legacyFetchRun_empty, fetchRun_empty]
      · by_cases hs : (raw.length : Int) < limit
        · rw [legacyFetchRun_short limit st acc raw rest h0 hs,
            fetchRun_short limit st acc raw rest h0 hs]
        · rw [legacyFetchRun_full limit st acc raw rest h0 hs,
            fetchRun_full limit st acc raw rest h0 hs, ih]

lemma legacyRemap_mapCandle (r : RawCandle) :
    legacyRemap (mapCandle r) = mapCandle r := rfl

lemma fetchRun_map_remap (limit : Int) :
    ∀ (script : List PageResp) (st : Int) (acc : List CandleWithISO),
      (∀ c ∈ acc, legacyRemap c = c) →
      (fetchRun limit script st acc).2.map legacyRemap =
        (fetchRun limit script st acc).2 := by
  intro script
  induction script with
  | nil => intro st acc h; rw [fetchRun_nil]; exact map_pointwise_id _ _ h
  | cons r rest ih =>
    intro st acc h
    cases r with
    | error u => rw [fetchRun_error]; exact map_pointwise_id _ _ h
    | ok raw =>
      by_cases h0 : raw = []
      · subst h0; rw [fetchRun_empty]; exact map_pointwise_id _ _ h
      · have hacc' : ∀ c ∈ acc ++ raw.map mapCandle, legacyRemap c = c := by
          intro c hc
          rcases List.mem_append.mp hc with hc | hc
          · exact h c hc
          · rcases List.mem_map.mp hc with ⟨r', _, rfl⟩
            exact legacyRemap_mapCandle r'
        by_cases hs : (raw.length : Int) < limit
        · rw [fetchRun_short limit st acc raw rest h0 hs]
          exact map_pointwise_id _ _ hacc'
        · rw [fetchRun_full limit st acc raw rest h0 hs]
          exact ih _ _ hacc'

/-- Claim C10: for the same limit, start instant and upstream responses, the
legacy standalone script and the modular service write byte-identical CSV
contents, the legacy pre-save re-mapping through `mapCandle` notwithstanding. -/
theorem spec_C10 (limit startMs : Int) (script : List PageResp) :
    (legacyFetchCandlesFile limit startMs script).1 =
      (fetchCandlesFile limit startMs script).1 := by
  show legacySaveCandlesToFile
      ((legacyFetchRun limit script startMs []).2.map legacyRemap) =
    saveCandlesToFile (fetchRun limit script startMs []).2
  rw [legacyFetchRun_eq]
  rw [fetchRun_map_remap limit script startMs [] (by intro c hc; cases hc)]
  rfl

end TakeCandles
